import Mathlib

/-!
# GO-Cluster controller: reconciliation, health check, routing and control API

A shallow embedding of `src/controller/main.go`.

* The global `state` is passed explicitly: every operation is a function from
  `ClusterState` to `ClusterState` (plus, for `reconcile`, the list of agent
  calls it issued).  Each operation runs as one atomic step; `state.mu` is not
  modelled.
* `state.Replicas` (a Go `map[string]*Replica`) is an association list.  A Go
  map holds at most one entry per key; `ClusterState.WF` records this, and
  `reconcile` and `checkHealth` preserve it (`reconcile_nodupKeys`,
  `checkHealth_nodupKeys`).
* Everything that comes from outside the program is an oracle argument: the
  answers of the agents, `uuid.New()`, `rand.Intn`, `time.Now()` and the entry
  a `for ... range` over a map visits first.
* Go's `int` is 64 bit; `wrapInt` is the wrap-around of its arithmetic.
-/

namespace GoCluster

/-! ## Data model -/

/-- The pair `(resp, err)` an `http` call returns: a transport error
(`err != nil`) or a response with a status code. -/
inductive HttpResult where
  | transportError
  | status (code : Nat)
  deriving DecidableEq, Repr

/-- The test `err == nil && resp.StatusCode == 200` of `checkHealth`; its
negation is the test `err != nil || resp.StatusCode != 200` of `startReplica`. -/
def HttpResult.ok200 : HttpResult → Bool
  | .transportError => false
  | .status code => code == 200

/-- The Go struct `ServiceConfig`. -/
structure ServiceConfig where
  BinaryName : String
  Args : List String
  deriving DecidableEq, Repr

/-- The Go struct `Replica`; `StartedAt` is a clock reading. -/
structure Replica where
  ID : String
  NodeURL : String
  Port : String
  StartedAt : Nat
  Status : String
  deriving DecidableEq, Repr

/-- The Go type `map[string]*Replica`, as the list of its entries. -/
abbrev ReplicaMap := List (String × Replica)

/-- The Go struct `ClusterState`, without the lock. -/
structure ClusterState where
  Nodes : List String
  Replicas : ReplicaMap
  DesiredReplicas : Int
  Config : ServiceConfig
  deriving DecidableEq, Repr

/-- The initial value of the global `state`. -/
def state : ClusterState :=
  { Nodes := []
    Replicas := []
    DesiredReplicas := 0
    Config := { BinaryName := "worker", Args := [] } }

/-- The keys of a replica map. -/
def keys (m : ReplicaMap) : List String := m.map Prod.fst

/-- Go's `delete(m, id)`. -/
def mapDelete (m : ReplicaMap) (id : String) : ReplicaMap :=
  m.filter (fun e => e.1 != id)

/-- Go's `m[id] = r`: the entry of `id` is overwritten when there is one,
a new entry is added otherwise. -/
def mapSet (m : ReplicaMap) (id : String) (r : Replica) : ReplicaMap :=
  if m.any (fun e => e.1 == id) then
    m.map (fun e => if e.1 == id then (id, r) else e)
  else
    m ++ [(id, r)]

/-- Wrap-around of Go's 64-bit `int` arithmetic. -/
def wrapInt (x : Int) : Int := (x + 2 ^ 63) % 2 ^ 64 - 2 ^ 63

/-- The call `rand.Intn(n)` for `n > 0`, from the raw random number `r`: every
value below `n` is possible. -/
def randIntn (r n : Nat) : Nat := r % n

/-- A value a Go program can hold: the replica map has one entry per key, and
`DesiredReplicas` and `len(Replicas)` are 64-bit `int`s. -/
structure ClusterState.WF (s : ClusterState) : Prop where
  nodupKeys : (keys s.Replicas).Nodup
  desiredLower : -(2 ^ 63 : Int) ≤ s.DesiredReplicas
  desiredUpper : s.DesiredReplicas < 2 ^ 63
  lenUpper : (s.Replicas.length : Int) < 2 ^ 63

/-! ## Agent calls and oracles -/

/-- One request the controller sends to an agent, with the answer it got:
`start` is `POST node/start` with the JSON body `{id, binary, port, args}`,
`stop` is `GET node/stop?id=id`. -/
inductive AgentCall where
  | start (node id binary port : String) (args : List String) (resp : HttpResult)
  | stop (node id : String) (resp : HttpResult)
  deriving DecidableEq, Repr

/-- What one call of `startReplica` takes from outside: the two raw random
numbers, the UUID, the agent's answer and the clock. -/
structure StartOracle where
  nodeRand : Nat
  id : String
  portRand : Nat
  resp : HttpResult
  now : Nat

/-- What one call of `stopReplica` takes from outside: which entry the
`range` over the map visits first (as an index into the entries, taken modulo
their number) and the agent's answer. -/
structure StopOracle where
  first : Nat
  resp : HttpResult

/-- The oracles of one `reconcile` tick, one per loop iteration. -/
structure TickOracle where
  start : Nat → StartOracle
  stop : Nat → StopOracle

/-! ## The reconciler -/

/-- The function `startReplica`. -/
def startReplica (o : StartOracle) (s : ClusterState) : ClusterState × List AgentCall :=
  if s.Nodes.length = 0 then
    (s, [])
  else
    let node := s.Nodes.getD (randIntn o.nodeRand s.Nodes.length) ""
    let id := o.id
    let port := toString (8000 + randIntn o.portRand 1000)
    let call := AgentCall.start node id s.Config.BinaryName port s.Config.Args o.resp
    if !o.resp.ok200 then
      (s, [call])
    else
      ({ s with
          Replicas := mapSet s.Replicas id
            { ID := id, NodeURL := node, Port := port, StartedAt := o.now, Status := "Running" } },
        [call])

/-- The function `stopReplica`: the body runs for the first entry the `range`
visits and breaks; with an empty map it does not run. The entry is deleted
whatever the agent answered. The request is taken to be well formed
(`replica.NodeURL` is a URL the controller has posted a start request to). -/
def stopReplica (o : StopOracle) (s : ClusterState) : ClusterState × List AgentCall :=
  match s.Replicas[o.first % s.Replicas.length]? with
  | none => (s, [])
  | some (id, replica) =>
    ({ s with Replicas := mapDelete s.Replicas id }, [AgentCall.stop replica.NodeURL id o.resp])

/-- The loop `for i := k; i < k + n; i++ { body }`, collecting the calls. -/
def forLoop (body : Nat → ClusterState → ClusterState × List AgentCall) :
    Nat → Nat → ClusterState → ClusterState × List AgentCall
  | _, 0, s => (s, [])
  | k, n + 1, s =>
    let r1 := body k s
    let r2 := forLoop body (k + 1) n r1.1
    (r2.1, r1.2 ++ r2.2)

/-- The function `reconcile`: one tick of the reconciler. -/
def reconcile (o : TickOracle) (s : ClusterState) : ClusterState × List AgentCall :=
  let currentCount : Int := s.Replicas.length
  let diff := wrapInt (s.DesiredReplicas - currentCount)
  if diff > 0 then
    forLoop (fun i => startReplica (o.start i)) 0 diff.toNat s
  else if diff < 0 then
    forLoop (fun i => stopReplica (o.stop i)) 0 (wrapInt (-diff)).toNat s
  else
    (s, [])

/-- The first `n` consecutive `reconcile` ticks, tick `t` with the oracles
`orc t`. -/
def reconcileTicks (orc : Nat → TickOracle) : Nat → ClusterState → ClusterState × List AgentCall
  | 0, s => (s, [])
  | n + 1, s =>
    let r1 := reconcile (orc 0) s
    let r2 := reconcileTicks (fun t => orc (t + 1)) n r1.1
    (r2.1, r1.2 ++ r2.2)

/-! ## The health monitor -/

/-- The inner loop of `checkHealth`: every entry whose `NodeURL` is `node` is
deleted. The loop deletes only the entry it is visiting, so it visits every
entry of the map once. -/
def evictNode (node : String) (m : ReplicaMap) : ReplicaMap :=
  m.foldl (fun acc e => if e.2.NodeURL == node then mapDelete acc e.1 else acc) m

/-- The function `checkHealth`; `httpGet` answers the probe `http.Get(url)`. -/
def checkHealth (httpGet : String → HttpResult) (s : ClusterState) : ClusterState :=
  { s with
    Replicas := s.Nodes.foldl
      (fun m node => if (httpGet (node ++ "/status")).ok200 then m else evictNode node m)
      s.Replicas }

/-! ## The control API and the router -/

/-- The state update of `scaleHandler`, `count` being the decoded `req.Count`. -/
def scaleHandler (count : Int) (s : ClusterState) : ClusterState :=
  { s with DesiredReplicas := count }

/-- The state update of `addNodeHandler`, `url` being the decoded `req.Url`. -/
def addNodeHandler (url : String) (s : ClusterState) : ClusterState :=
  let nodeExists := s.Nodes.foldl (fun e n => if n == url then true else e) false
  if !nodeExists then { s with Nodes := s.Nodes ++ [url] } else s

/-- What `statusHandler` writes: the JSON fields of `ClusterState` (`Config`
has the tag `json:"-"`). -/
structure StatusView where
  nodes : List String
  replicas : ReplicaMap
  desired_replicas : Int
  deriving DecidableEq, Repr

/-- The function `statusHandler`. -/
def statusHandler (s : ClusterState) : StatusView :=
  { nodes := s.Nodes, replicas := s.Replicas, desired_replicas := s.DesiredReplicas }

/-- What `proxyHandler` does with a request. -/
inductive ProxyOutcome where
  | serviceUnavailable
  | forward (target : Replica) (targetUrlString : String)
  deriving DecidableEq, Repr

/-- The function `proxyHandler`. `range` gives the order in which the loop
over `state.Replicas` visits the entries, `urlParse` the scheme and host name
that `url.Parse` reads from a node URL (taken to parse), `rnd` the raw random
number. The second `none` branch is never taken: the index is in bounds. -/
def proxyHandler (urlParse : String → String × String) (range : ReplicaMap → ReplicaMap)
    (rnd : Nat) (s : ClusterState) : ProxyOutcome :=
  let replicas := (range s.Replicas).map Prod.snd
  if replicas.length = 0 then
    .serviceUnavailable
  else
    match replicas[randIntn rnd replicas.length]? with
    | none => .serviceUnavailable
    | some target =>
      let nodeUrl := urlParse target.NodeURL
      .forward target (nodeUrl.1 ++ "://" ++ nodeUrl.2 ++ ":" ++ target.Port)

/-- A request to one of the two administrative paths that change the state
(`/scale` and `/add-node` in `main`). -/
inductive AdminCall where
  | scale (count : Int)
  | addNode (url : String)
  deriving DecidableEq, Repr

/-- The state update of the handler that serves an administrative request. -/
def applyAdmin (c : AdminCall) (s : ClusterState) : ClusterState :=
  match c with
  | .scale count => scaleHandler count s
  | .addNode url => addNodeHandler url s

/-- A sequence of administrative requests, served in order. -/
def applyAdmins (calls : List AdminCall) (s : ClusterState) : ClusterState :=
  calls.foldl (fun st c => applyAdmin c st) s

/-- The count of the last `/scale` request of a sequence, if there is one. -/
def lastScale : List AdminCall → Option Int
  | [] => none
  | c :: rest =>
    match lastScale rest with
    | some n => some n
    | none =>
      match c with
      | .scale n => some n
      | .addNode _ => none

/-- One thing that happens to the state of the running controller: an
administrative request is served, the reconciler runs a tick, or the health
monitor runs a check. `orchestrationLoop` runs a tick and then a check every
three seconds; requests may be served in between. -/
inductive Event where
  | admin (c : AdminCall)
  | tick (o : TickOracle)
  | health (httpGet : String → HttpResult)

/-- The state after one event. -/
def applyEvent (ev : Event) (s : ClusterState) : ClusterState :=
  match ev with
  | .admin c => applyAdmin c s
  | .tick o => (reconcile o s).1
  | .health httpGet => checkHealth httpGet s

/-- The state after a sequence of events, in order. The states the program
reaches are `runEvents events state`, for the initial `state`. -/
def runEvents (events : List Event) (s : ClusterState) : ClusterState :=
  events.foldl (fun st ev => applyEvent ev st) s

/-! ## The placement invariant -/

/-- Every replica of the map is placed on a registered node and is stored under
its own id. -/
def Inv (s : ClusterState) : Prop :=
  ∀ e ∈ s.Replicas, e.2.NodeURL ∈ s.Nodes ∧ e.1 = e.2.ID

instance (s : ClusterState) : Decidable (Inv s) := by
  unfold Inv; infer_instance

/-! ## Observations on a list of agent calls -/

/-- The ids of the `start` calls of a list of calls, in order. -/
def startIds (t : List AgentCall) : List String :=
  t.filterMap (fun c => match c with
    | .start _ id _ _ _ _ => some id
    | .stop _ _ _ => none)

/-- The answers to the `start` calls of a list of calls, in order. -/
def startResps (t : List AgentCall) : List HttpResult :=
  t.filterMap (fun c => match c with
    | .start _ _ _ _ _ resp => some resp
    | .stop _ _ _ => none)

/-- The ids of the `stop` calls of a list of calls, in order. -/
def stopIds (t : List AgentCall) : List String :=
  t.filterMap (fun c => match c with
    | .start _ _ _ _ _ _ => none
    | .stop _ id _ => some id)

/-! ## Example inputs -/

/-- A running replica with the given id on the given node. -/
def exampleReplica (id node : String) : Replica :=
  { ID := id, NodeURL := node, Port := "8001", StartedAt := 0, Status := "Running" }

/-- Two nodes, three replicas (two on the first node), one replica wanted. -/
def exampleState : ClusterState :=
  { Nodes := ["http://n1", "http://n2"]
    Replicas := [("a", exampleReplica "a" "http://n1"), ("b", exampleReplica "b" "http://n2"),
      ("c", exampleReplica "c" "http://n1")]
    DesiredReplicas := 1
    Config := { BinaryName := "worker", Args := [] } }

/-- The same cluster with five replicas wanted. -/
def exampleStateUp : ClusterState := { exampleState with DesiredReplicas := 5 }

/-- A fresh cluster with one node and three replicas wanted. -/
def exampleStateEmpty : ClusterState :=
  { Nodes := ["http://n1"]
    Replicas := []
    DesiredReplicas := 3
    Config := { BinaryName := "worker", Args := [] } }

/-- A run from the initial state: two nodes are registered (the first one
twice), three replicas are asked for, and a tick and a health check follow. -/
def exampleEvents : List Event :=
  [.admin (.addNode "http://n1"), .admin (.addNode "http://n2"),
    .admin (.addNode "http://n1"), .admin (.scale 3),
    .tick
      { start := fun i =>
          { nodeRand := i, id := ["x", "y", "z"].getD i "w", portRand := i,
            resp := .status 200, now := i }
        stop := fun i => { first := i, resp := .status 200 } },
    .health (fun _ => .status 200)]

/-- Every start call answers 200 and gets an id of its own; the first stop
call fails in transport, the others answer 200. -/
def exampleOracle : TickOracle :=
  { start := fun i =>
      { nodeRand := i, id := ["x", "y", "z"].getD i "w", portRand := 7 * i + 1,
        resp := .status 200, now := 10 + i }
    stop := fun i =>
      { first := 2 * i + 1, resp := if i = 0 then .transportError else .status 200 } }

/-- Every start call fails: the first in transport, the others with status 500. -/
def exampleOracleFail : TickOracle :=
  { start := fun i =>
      { nodeRand := i, id := ["x", "y", "z"].getD i "w", portRand := i,
        resp := if i = 0 then .transportError else .status 500, now := 10 + i }
    stop := fun i => { first := i, resp := .status 200 } }

/-- A probe that reaches every node but `http://n1`. -/
def exampleProbe (url : String) : HttpResult :=
  if url = "http://n1/status" then .transportError else .status 200

/-! ## Lemmas: the control API -/

theorem exists_fold_eq (url : String) (nodes : List String) (b : Bool) :
    nodes.foldl (fun e n => if n == url then true else e) b = (b || decide (url ∈ nodes)) := by
  induction nodes generalizing b with
  | nil => simp
  | cons n ns ih =>
    simp only [List.foldl_cons, ih, List.mem_cons]
    by_cases h : n = url
    · subst h; simp
    · have h2 : ¬ url = n := fun e => h e.symm
      simp [h, h2]

theorem addNodeHandler_of_mem (url : String) (s : ClusterState) (h : url ∈ s.Nodes) :
    addNodeHandler url s = s := by
  simp only [addNodeHandler, exists_fold_eq]
  simp [h]

theorem addNodeHandler_of_not_mem (url : String) (s : ClusterState) (h : url ∉ s.Nodes) :
    addNodeHandler url s = { s with Nodes := s.Nodes ++ [url] } := by
  simp only [addNodeHandler, exists_fold_eq]
  simp [h]

theorem addNodeHandler_mem (url : String) (s : ClusterState) :
    url ∈ (addNodeHandler url s).Nodes := by
  by_cases h : url ∈ s.Nodes
  · rw [addNodeHandler_of_mem url s h]; exact h
  · rw [addNodeHandler_of_not_mem url s h]; simp

theorem addNodeHandler_subset (url : String) (s : ClusterState) :
    ∀ u ∈ s.Nodes, u ∈ (addNodeHandler url s).Nodes := by
  intro u hu
  by_cases h : url ∈ s.Nodes
  · rw [addNodeHandler_of_mem url s h]; exact hu
  · rw [addNodeHandler_of_not_mem url s h]; simp [hu]

theorem addNodeHandler_frame (url : String) (s : ClusterState) :
    (addNodeHandler url s).Replicas = s.Replicas ∧
    (addNodeHandler url s).DesiredReplicas = s.DesiredReplicas ∧
    (addNodeHandler url s).Config = s.Config := by
  by_cases h : url ∈ s.Nodes
  · rw [addNodeHandler_of_mem url s h]; simp
  · rw [addNodeHandler_of_not_mem url s h]; simp

theorem applyAdmins_append (xs ys : List AdminCall) (s : ClusterState) :
    applyAdmins (xs ++ ys) s = applyAdmins ys (applyAdmins xs s) := by
  simp [applyAdmins, List.foldl_append]

theorem applyAdmins_frame (calls : List AdminCall) (s : ClusterState) :
    (applyAdmins calls s).Replicas = s.Replicas ∧
    (applyAdmins calls s).Config = s.Config ∧
    (applyAdmins calls s).DesiredReplicas = (lastScale calls).getD s.DesiredReplicas ∧
    (∀ u ∈ s.Nodes, u ∈ (applyAdmins calls s).Nodes) ∧
    (∀ u, AdminCall.addNode u ∈ calls → u ∈ (applyAdmins calls s).Nodes) := by
  induction calls generalizing s with
  | nil => simp [applyAdmins, lastScale]
  | cons c rest ih =>
    have hstep : applyAdmins (c :: rest) s = applyAdmins rest (applyAdmin c s) := rfl
    obtain ⟨h1, h2, h3, h4, h5⟩ := ih (applyAdmin c s)
    rw [hstep]
    cases c with
    | scale n =>
      refine ⟨by rw [h1]; rfl, by rw [h2]; rfl, ?_, ?_, ?_⟩
      · rw [h3]; simp only [lastScale]
        cases lastScale rest <;> simp [applyAdmin, scaleHandler]
      · intro u hu; exact h4 u hu
      · intro u hu
        simp only [List.mem_cons] at hu
        rcases hu with hu | hu
        · cases hu
        · exact h5 u hu
    | addNode url =>
      have hf := addNodeHandler_frame url s
      refine ⟨by rw [h1]; exact hf.1, by rw [h2]; exact hf.2.2, ?_, ?_, ?_⟩
      · rw [h3]; simp only [lastScale]
        cases lastScale rest <;> simp [applyAdmin, hf.2.1]
      · intro u hu; exact h4 u (addNodeHandler_subset url s u hu)
      · intro u hu
        simp only [List.mem_cons] at hu
        rcases hu with hu | hu
        · have hu2 : u = url := by injection hu
          rw [hu2]
          exact h4 url (addNodeHandler_mem url s)
        · exact h5 u hu

/-! ## Lemmas: the replica map -/

theorem mapDelete_sublist (m : ReplicaMap) (id : String) : (mapDelete m id).Sublist m :=
  List.filter_sublist m

theorem mem_mapDelete (m : ReplicaMap) (id : String) (e : String × Replica) :
    e ∈ mapDelete m id ↔ e ∈ m ∧ e.1 ≠ id := by
  simp [mapDelete]

theorem keys_nodup_of_sublist (m m2 : ReplicaMap) (hs : m2.Sublist m) (h : (keys m).Nodup) :
    (keys m2).Nodup :=
  h.sublist (hs.map Prod.fst)

theorem eq_of_key_eq (m : ReplicaMap) (h : (keys m).Nodup) (e1 e2 : String × Replica)
    (h1 : e1 ∈ m) (h2 : e2 ∈ m) (hk : e1.1 = e2.1) : e1 = e2 :=
  List.inj_on_of_nodup_map h h1 h2 hk

theorem mapDelete_of_not_mem (m : ReplicaMap) (id : String) (h : id ∉ keys m) :
    mapDelete m id = m := by
  unfold mapDelete
  rw [List.filter_eq_self]
  intro e he
  have : e.1 ≠ id := fun hk => h (hk ▸ List.mem_map_of_mem Prod.fst he)
  simpa using this

theorem mapDelete_length (m : ReplicaMap) (e : String × Replica) (h : (keys m).Nodup)
    (he : e ∈ m) : (mapDelete m e.1).length + 1 = m.length := by
  induction m with
  | nil => cases he
  | cons x xs ih =>
    have hx : x.1 ∉ keys xs := (List.nodup_cons.mp h).1
    have hxs : (keys xs).Nodup := (List.nodup_cons.mp h).2
    rcases List.mem_cons.mp he with hex | hex
    · subst hex
      have h1 : mapDelete (e :: xs) e.1 = mapDelete xs e.1 := by
        simp [mapDelete]
      rw [h1, mapDelete_of_not_mem xs e.1 hx]
      simp
    · have hne : x.1 ≠ e.1 := fun hk => hx (hk ▸ List.mem_map_of_mem Prod.fst hex)
      have h1 : mapDelete (x :: xs) e.1 = x :: mapDelete xs e.1 := by
        simp [mapDelete, hne]
      rw [h1]
      simp [ih hxs hex]

theorem mapSet_of_not_mem (m : ReplicaMap) (id : String) (r : Replica) (h : id ∉ keys m) :
    mapSet m id r = m ++ [(id, r)] := by
  unfold mapSet
  have : m.any (fun e => e.1 == id) = false := by
    rw [List.any_eq_false]
    intro e he hk
    exact h ((beq_iff_eq.mp hk) ▸ List.mem_map_of_mem Prod.fst he)
  simp [this]

theorem mem_mapSet (m : ReplicaMap) (id : String) (r : Replica) (e : String × Replica)
    (he : e ∈ mapSet m id r) : e ∈ m ∨ e = (id, r) := by
  unfold mapSet at he
  split at he
  · obtain ⟨x, hx, hxe⟩ := List.mem_map.mp he
    by_cases hk : x.1 = id
    · right; simpa [hk] using hxe.symm
    · left
      have : e = x := by simpa [hk] using hxe.symm
      exact this ▸ hx
  · rcases List.mem_append.mp he with h1 | h1
    · exact Or.inl h1
    · exact Or.inr (by simpa using h1)

/-! ## Lemmas: loops -/

theorem forLoop_invariant (P : ClusterState → Prop)
    (body : Nat → ClusterState → ClusterState × List AgentCall)
    (hbody : ∀ i s, P s → P (body i s).1) :
    ∀ n k s, P s → P (forLoop body k n s).1 := by
  intro n
  induction n with
  | zero => intro k s hs; exact hs
  | succ n ih =>
    intro k s hs
    exact ih (k + 1) (body k s).1 (hbody k s hs)

theorem getD_mem (l : List String) (i : Nat) (d : String) (h : i < l.length) :
    l.getD i d ∈ l := by
  rw [List.getD_eq_getElem l d h]
  exact List.getElem_mem h

theorem randIntn_lt (r n : Nat) (h : n ≠ 0) : randIntn r n < n :=
  Nat.mod_lt r (Nat.pos_of_ne_zero h)

/-! ## Lemmas: the placement invariant -/

theorem startReplica_inv (o : StartOracle) (s : ClusterState) (h : Inv s) :
    Inv (startReplica o s).1 := by
  unfold startReplica
  by_cases hn : s.Nodes.length = 0
  · simpa [hn] using h
  · by_cases hr : o.resp.ok200 = true
    · simp only [hn, hr, if_false, Bool.not_true]
      intro e he
      rcases mem_mapSet _ _ _ _ he with h1 | h1
      · exact h e h1
      · subst h1
        exact ⟨getD_mem _ _ _ (randIntn_lt _ _ hn), rfl⟩
    · simpa [hn, hr] using h

theorem stopReplica_inv (o : StopOracle) (s : ClusterState) (h : Inv s) :
    Inv (stopReplica o s).1 := by
  unfold stopReplica
  split
  · exact h
  · intro e he
    exact h e ((mem_mapDelete _ _ _).mp he).1

theorem reconcile_inv (o : TickOracle) (s : ClusterState) (h : Inv s) :
    Inv (reconcile o s).1 := by
  unfold reconcile
  simp only
  split
  · exact forLoop_invariant Inv _ (fun i st hst => startReplica_inv (o.start i) st hst) _ _ _ h
  · split
    · exact forLoop_invariant Inv _ (fun i st hst => stopReplica_inv (o.stop i) st hst) _ _ _ h
    · exact h

/-! ## Lemmas: the health monitor -/

theorem evictLoop_eq_filter (node : String) (l acc : ReplicaMap) :
    l.foldl (fun acc e => if e.2.NodeURL == node then mapDelete acc e.1 else acc) acc =
      acc.filter (fun e => decide (e.1 ∉ keys (l.filter (fun x => x.2.NodeURL == node)))) := by
  induction l generalizing acc with
  | nil => simp [keys]
  | cons x xs ih =>
    rw [List.foldl_cons, ih]
    by_cases hx : x.2.NodeURL = node
    · have hK : keys ((x :: xs).filter (fun y => y.2.NodeURL == node)) =
          x.1 :: keys (xs.filter (fun y => y.2.NodeURL == node)) := by
        rw [List.filter_cons_of_pos (by simpa using hx)]
        rfl
      rw [hK]
      simp only [hx, beq_self_eq_true, if_true, mapDelete, List.filter_filter]
      apply List.filter_congr
      intro e _
      by_cases hk : e.1 = x.1 <;> simp [hk]
    · have hK : (x :: xs).filter (fun y => y.2.NodeURL == node) =
          xs.filter (fun y => y.2.NodeURL == node) := by
        rw [List.filter_cons_of_neg (by simpa using hx)]
      rw [hK]
      simp [hx]

theorem evictNode_eq_filter (node : String) (m : ReplicaMap) (h : (keys m).Nodup) :
    evictNode node m = m.filter (fun e => e.2.NodeURL != node) := by
  unfold evictNode
  rw [evictLoop_eq_filter]
  apply List.filter_congr
  intro e he
  by_cases hn : e.2.NodeURL = node
  · have : e.1 ∈ keys (m.filter (fun x => x.2.NodeURL == node)) :=
      List.mem_map_of_mem Prod.fst (List.mem_filter.mpr ⟨he, by simpa using hn⟩)
    simp [hn, this]
  · have : e.1 ∉ keys (m.filter (fun x => x.2.NodeURL == node)) := by
      intro hk
      obtain ⟨x, hx, hxe⟩ := List.mem_map.mp hk
      have hx2 := List.mem_filter.mp hx
      have hxeq : x = e := eq_of_key_eq m h x e hx2.1 he hxe
      exact hn (hxeq ▸ (by simpa using hx2.2))
    simp [hn, this]

theorem evictNode_sublist (node : String) (m : ReplicaMap) : (evictNode node m).Sublist m := by
  unfold evictNode
  rw [evictLoop_eq_filter]
  exact List.filter_sublist m

theorem probeLoop_sublist (httpGet : String → HttpResult) (nodes : List String) (m : ReplicaMap) :
    (nodes.foldl
      (fun m node => if (httpGet (node ++ "/status")).ok200 then m else evictNode node m)
      m).Sublist m := by
  induction nodes generalizing m with
  | nil => exact List.Sublist.refl m
  | cons n ns ih =>
    rw [List.foldl_cons]
    split
    · exact ih m
    · exact (ih _).trans (evictNode_sublist n m)

theorem probeLoop_eq_filter (httpGet : String → HttpResult) (nodes : List String)
    (m : ReplicaMap) (h : (keys m).Nodup) :
    nodes.foldl
      (fun m node => if (httpGet (node ++ "/status")).ok200 then m else evictNode node m) m =
    m.filter (fun e =>
      decide (¬ (e.2.NodeURL ∈ nodes ∧ (httpGet (e.2.NodeURL ++ "/status")).ok200 = false))) := by
  induction nodes generalizing m with
  | nil => simp
  | cons n ns ih =>
    rw [List.foldl_cons]
    by_cases hok : (httpGet (n ++ "/status")).ok200 = true
    · rw [if_pos hok, ih m h]
      apply List.filter_congr
      intro e _
      by_cases hn : e.2.NodeURL = n
      · simp [hn, hok]
      · simp [hn]
    · rw [if_neg hok]
      rw [ih _ (keys_nodup_of_sublist m _ (evictNode_sublist n m) h), evictNode_eq_filter n m h,
        List.filter_filter]
      apply List.filter_congr
      intro e _
      by_cases hn : e.2.NodeURL = n
      · simp [hn, hok]
      · simp [hn]

theorem checkHealth_inv (httpGet : String → HttpResult) (s : ClusterState) (h : Inv s) :
    Inv (checkHealth httpGet s) := by
  intro e he
  exact h e ((probeLoop_sublist httpGet s.Nodes s.Replicas).subset he)

theorem scaleHandler_inv (count : Int) (s : ClusterState) (h : Inv s) :
    Inv (scaleHandler count s) := h

theorem addNodeHandler_inv (url : String) (s : ClusterState) (h : Inv s) :
    Inv (addNodeHandler url s) := by
  intro e he
  rw [(addNodeHandler_frame url s).1] at he
  exact ⟨addNodeHandler_subset url s _ (h e he).1, (h e he).2⟩

/-! ## Lemmas: the map keeps one entry per key -/

theorem keys_mapSet_nodup (m : ReplicaMap) (id : String) (r : Replica)
    (h : (keys m).Nodup) : (keys (mapSet m id r)).Nodup := by
  unfold mapSet
  split
  · have hk : keys (m.map (fun e => if e.1 == id then (id, r) else e)) = keys m := by
      unfold keys
      rw [List.map_map]
      apply List.map_congr_left
      intro e _
      by_cases he : e.1 = id <;> simp [he]
    rw [hk]; exact h
  · rename_i hany
    have hid : id ∉ keys m := by
      intro hmem
      obtain ⟨e, he, hek⟩ := List.mem_map.mp hmem
      exact hany (List.any_eq_true.mpr ⟨e, he, by simpa using hek⟩)
    have hk : keys (m ++ [(id, r)]) = keys m ++ [id] := by simp [keys]
    rw [hk, List.nodup_append]
    refine ⟨h, List.nodup_singleton id, ?_⟩
    intro a ha hb
    rw [List.mem_singleton] at hb
    exact hid (hb ▸ ha)

theorem startReplica_nodupKeys (o : StartOracle) (s : ClusterState)
    (h : (keys s.Replicas).Nodup) : (keys (startReplica o s).1.Replicas).Nodup := by
  unfold startReplica
  split
  · exact h
  · split
    · exact h
    · exact keys_mapSet_nodup _ _ _ h

theorem stopReplica_nodupKeys (o : StopOracle) (s : ClusterState)
    (h : (keys s.Replicas).Nodup) : (keys (stopReplica o s).1.Replicas).Nodup := by
  unfold stopReplica
  split
  · exact h
  · exact keys_nodup_of_sublist _ _ (mapDelete_sublist _ _) h

theorem reconcile_nodupKeys (o : TickOracle) (s : ClusterState)
    (h : (keys s.Replicas).Nodup) : (keys (reconcile o s).1.Replicas).Nodup := by
  unfold reconcile
  simp only
  split
  · exact forLoop_invariant (fun st => (keys st.Replicas).Nodup) _
      (fun i st hst => startReplica_nodupKeys (o.start i) st hst) _ _ _ h
  · split
    · exact forLoop_invariant (fun st => (keys st.Replicas).Nodup) _
        (fun i st hst => stopReplica_nodupKeys (o.stop i) st hst) _ _ _ h
    · exact h

theorem checkHealth_nodupKeys (httpGet : String → HttpResult) (s : ClusterState)
    (h : (keys s.Replicas).Nodup) : (keys (checkHealth httpGet s).Replicas).Nodup :=
  keys_nodup_of_sublist _ _ (probeLoop_sublist httpGet s.Nodes s.Replicas) h

theorem checkHealth_all_reachable (httpGet : String → HttpResult) (s : ClusterState)
    (h : ∀ node ∈ s.Nodes, (httpGet (node ++ "/status")).ok200 = true) :
    checkHealth httpGet s = s := by
  have hloop : ∀ (nodes : List String) (m : ReplicaMap),
      (∀ node ∈ nodes, (httpGet (node ++ "/status")).ok200 = true) →
      nodes.foldl
        (fun m node => if (httpGet (node ++ "/status")).ok200 then m else evictNode node m)
        m = m := by
    intro nodes
    induction nodes with
    | nil => intro m _; rfl
    | cons n ns ih =>
      intro m hall
      rw [List.foldl_cons, if_pos (hall n (List.mem_cons_self n ns))]
      exact ih m (fun node hn => hall node (List.mem_cons_of_mem n hn))
  unfold checkHealth
  rw [hloop s.Nodes s.Replicas h]

/-! ## Lemmas: one tick of the reconciler -/

theorem wrapInt_of_range (x : Int) (h1 : -(2 ^ 63 : Int) ≤ x) (h2 : x < 2 ^ 63) :
    wrapInt x = x := by
  unfold wrapInt
  norm_num at h1 h2 ⊢
  omega

theorem reconcile_fixed (o : TickOracle) (s : ClusterState)
    (h : (s.Replicas.length : Int) = s.DesiredReplicas) : reconcile o s = (s, []) := by
  have hd : wrapInt (s.DesiredReplicas - (s.Replicas.length : Int)) = 0 := by
    rw [h, sub_self]; rfl
  simp [reconcile, hd]

theorem reconcile_up (o : TickOracle) (s : ClusterState) (hwf : s.WF)
    (h : (s.Replicas.length : Int) < s.DesiredReplicas) :
    reconcile o s =
      forLoop (fun i => startReplica (o.start i)) 0
        (s.DesiredReplicas - (s.Replicas.length : Int)).toNat s := by
  have hu := hwf.desiredUpper
  have hd : wrapInt (s.DesiredReplicas - (s.Replicas.length : Int)) =
      s.DesiredReplicas - (s.Replicas.length : Int) := by
    apply wrapInt_of_range <;> norm_num at hu ⊢ <;> omega
  have hpos : s.DesiredReplicas - (s.Replicas.length : Int) > 0 := by omega
  simp only [reconcile, hd, hpos, if_true]

theorem reconcile_down (o : TickOracle) (s : ClusterState) (hwf : s.WF)
    (h0 : 0 ≤ s.DesiredReplicas) (h : s.DesiredReplicas < (s.Replicas.length : Int)) :
    reconcile o s =
      forLoop (fun i => stopReplica (o.stop i)) 0
        ((s.Replicas.length : Int) - s.DesiredReplicas).toNat s := by
  have hu := hwf.lenUpper
  have hd : wrapInt (s.DesiredReplicas - (s.Replicas.length : Int)) =
      s.DesiredReplicas - (s.Replicas.length : Int) := by
    apply wrapInt_of_range <;> norm_num at hu ⊢ <;> omega
  have hd2 : wrapInt (-(s.DesiredReplicas - (s.Replicas.length : Int))) =
      (s.Replicas.length : Int) - s.DesiredReplicas := by
    rw [wrapInt_of_range] <;> norm_num at hu ⊢ <;> omega
  have hneg : s.DesiredReplicas - (s.Replicas.length : Int) < 0 := by omega
  have hnpos : ¬ (s.DesiredReplicas - (s.Replicas.length : Int) > 0) := by omega
  simp only [reconcile, hd, hd2, hneg, hnpos, if_true, if_false]

theorem forLoop_state_congr (b1 b2 : Nat → ClusterState → ClusterState × List AgentCall)
    (h : ∀ i s, (b1 i s).1 = (b2 i s).1) :
    ∀ n k s, (forLoop b1 k n s).1 = (forLoop b2 k n s).1 := by
  intro n
  induction n with
  | zero => intro k s; rfl
  | succ n ih =>
    intro k s
    show (forLoop b1 (k + 1) n (b1 k s).1).1 = (forLoop b2 (k + 1) n (b2 k s).1).1
    rw [h k s]
    exact ih (k + 1) _

/-! ### Scaling down -/

theorem stopReplica_step (o : StopOracle) (s : ClusterState) (hne : s.Replicas ≠ []) :
    ∃ e ∈ s.Replicas, stopReplica o s =
      ({ s with Replicas := mapDelete s.Replicas e.1 },
        [AgentCall.stop e.2.NodeURL e.1 o.resp]) := by
  have hlen : s.Replicas.length ≠ 0 := fun h => hne (List.length_eq_zero.mp h)
  have hi : o.first % s.Replicas.length < s.Replicas.length :=
    Nat.mod_lt _ (Nat.pos_of_ne_zero hlen)
  refine ⟨s.Replicas[o.first % s.Replicas.length], List.getElem_mem hi, ?_⟩
  unfold stopReplica
  rw [List.getElem?_eq_getElem hi]
  rfl

theorem stopReplica_state_indep (o1 o2 : StopOracle) (s : ClusterState)
    (h : o1.first = o2.first) : (stopReplica o1 s).1 = (stopReplica o2 s).1 := by
  unfold stopReplica
  rw [h]
  split <;> rfl

theorem stopLoop_spec (stop : Nat → StopOracle) :
    ∀ n k s, (keys s.Replicas).Nodup → n ≤ s.Replicas.length →
      (forLoop (fun i => stopReplica (stop i)) k n s).1.Nodes = s.Nodes ∧
      (forLoop (fun i => stopReplica (stop i)) k n s).1.DesiredReplicas = s.DesiredReplicas ∧
      (forLoop (fun i => stopReplica (stop i)) k n s).1.Config = s.Config ∧
      (forLoop (fun i => stopReplica (stop i)) k n s).1.Replicas =
        s.Replicas.filter (fun e =>
          decide (e.1 ∉ stopIds (forLoop (fun i => stopReplica (stop i)) k n s).2)) ∧
      (forLoop (fun i => stopReplica (stop i)) k n s).1.Replicas.length + n =
        s.Replicas.length ∧
      (forLoop (fun i => stopReplica (stop i)) k n s).2.length = n ∧
      startIds (forLoop (fun i => stopReplica (stop i)) k n s).2 = [] ∧
      (stopIds (forLoop (fun i => stopReplica (stop i)) k n s).2).length = n ∧
      (stopIds (forLoop (fun i => stopReplica (stop i)) k n s).2).Nodup ∧
      (∀ c ∈ (forLoop (fun i => stopReplica (stop i)) k n s).2,
        ∃ e ∈ s.Replicas, ∃ resp, c = AgentCall.stop e.2.NodeURL e.1 resp) := by
  intro n
  induction n with
  | zero =>
    intro k s _ _
    simp [forLoop, stopIds, startIds]
  | succ n ih =>
    intro k s hnd hlen
    have hne : s.Replicas ≠ [] := by
      intro h; rw [h] at hlen; simp at hlen
    obtain ⟨e, he, hstep⟩ := stopReplica_step (stop k) s hne
    have hl1 := mapDelete_length s.Replicas e hnd he
    have hunf : forLoop (fun i => stopReplica (stop i)) k (n + 1) s =
        ((forLoop (fun i => stopReplica (stop i)) (k + 1) n
            { s with Replicas := mapDelete s.Replicas e.1 }).1,
          AgentCall.stop e.2.NodeURL e.1 (stop k).resp ::
            (forLoop (fun i => stopReplica (stop i)) (k + 1) n
              { s with Replicas := mapDelete s.Replicas e.1 }).2) := by
      show ((forLoop _ (k + 1) n (stopReplica (stop k) s).1).1,
        (stopReplica (stop k) s).2 ++ (forLoop _ (k + 1) n (stopReplica (stop k) s).1).2) = _
      rw [hstep]
      rfl
    obtain ⟨h1, h2, h3, h4, h5, h6, h7, h8, h9, h10⟩ :=
      ih (k + 1) { s with Replicas := mapDelete s.Replicas e.1 }
        (keys_nodup_of_sublist _ _ (mapDelete_sublist _ _) hnd) (by simp only; omega)
    rw [hunf]
    generalize forLoop (fun i => stopReplica (stop i)) (k + 1) n
      { s with Replicas := mapDelete s.Replicas e.1 } = r at h1 h2 h3 h4 h5 h6 h7 h8 h9 h10
    have hids : stopIds (AgentCall.stop e.2.NodeURL e.1 (stop k).resp :: r.2) =
        e.1 :: stopIds r.2 := rfl
    have hsids : startIds (AgentCall.stop e.2.NodeURL e.1 (stop k).resp :: r.2) =
        startIds r.2 := rfl
    have hfresh : e.1 ∉ stopIds r.2 := by
      intro hmem
      obtain ⟨c, hc, hcid⟩ := List.mem_filterMap.mp hmem
      obtain ⟨e2, he2, resp, hceq⟩ := h10 c hc
      subst hceq
      simp only [Option.some.injEq] at hcid
      exact ((mem_mapDelete _ _ _).mp he2).2 hcid
    refine ⟨h1, h2, h3, ?_, ?_, ?_, ?_, ?_, ?_, ?_⟩
    · simp only at h4 ⊢
      rw [h4, hids, mapDelete, List.filter_filter]
      apply List.filter_congr
      intro x _
      by_cases hx : x.1 = e.1 <;> simp [hx]
    · simp only at h5 ⊢
      omega
    · simp [h6]
    · rw [hsids]; exact h7
    · rw [hids]; simp [h8]
    · rw [hids]; exact List.nodup_cons.mpr ⟨hfresh, h9⟩
    · intro c hc
      rcases List.mem_cons.mp hc with hc | hc
      · exact ⟨e, he, (stop k).resp, hc⟩
      · obtain ⟨e2, he2, resp, hceq⟩ := h10 c hc
        exact ⟨e2, ((mem_mapDelete _ _ _).mp he2).1, resp, hceq⟩

/-! ### Scaling up -/

theorem forLoop_succ (body : Nat → ClusterState → ClusterState × List AgentCall)
    (k n : Nat) (s : ClusterState) :
    forLoop body k (n + 1) s =
      ((forLoop body (k + 1) n (body k s).1).1,
        (body k s).2 ++ (forLoop body (k + 1) n (body k s).1).2) := rfl

theorem startIds_append (t1 t2 : List AgentCall) :
    startIds (t1 ++ t2) = startIds t1 ++ startIds t2 := by
  simp [startIds, List.filterMap_append]

theorem startResps_append (t1 t2 : List AgentCall) :
    startResps (t1 ++ t2) = startResps t1 ++ startResps t2 := by
  simp [startResps, List.filterMap_append]

theorem startReplica_noNodes (o : StartOracle) (s : ClusterState) (hn : s.Nodes = []) :
    startReplica o s = (s, []) := by
  simp [startReplica, hn]

theorem startReplica_trace (o : StartOracle) (s : ClusterState) (hn : s.Nodes ≠ []) :
    startResps (startReplica o s).2 = [o.resp] ∧ startIds (startReplica o s).2 = [o.id] := by
  have hlen : ¬ s.Nodes.length = 0 := fun h => hn (List.length_eq_zero.mp h)
  unfold startReplica
  rw [if_neg hlen]
  by_cases hr : o.resp.ok200 = true
  · simp [hr, startResps, startIds]
  · simp [hr, startResps, startIds]

theorem startReplica_state_fail (o : StartOracle) (s : ClusterState)
    (hr : o.resp.ok200 = false) : (startReplica o s).1 = s := by
  unfold startReplica
  by_cases hlen : s.Nodes.length = 0
  · simp [hlen]
  · simp [hlen, hr]

theorem startReplica_state_ok (o : StartOracle) (s : ClusterState) (hn : s.Nodes ≠ [])
    (hr : o.resp.ok200 = true) (hid : o.id ∉ keys s.Replicas) :
    ∃ r : Replica, r.NodeURL ∈ s.Nodes ∧
      (startReplica o s).1 = { s with Replicas := s.Replicas ++ [(o.id, r)] } := by
  have hlen : ¬ s.Nodes.length = 0 := fun h => hn (List.length_eq_zero.mp h)
  refine ⟨{ ID := o.id, NodeURL := s.Nodes.getD (randIntn o.nodeRand s.Nodes.length) "",
            Port := toString (8000 + randIntn o.portRand 1000), StartedAt := o.now,
            Status := "Running" }, getD_mem _ _ _ (randIntn_lt _ _ hlen), ?_⟩
  unfold startReplica
  rw [if_neg hlen]
  simp only [hr, Bool.not_true, if_false]
  rw [mapSet_of_not_mem _ _ _ hid]
  simp

theorem startLoop_spec (start : Nat → StartOracle) :
    ∀ n k s, s.Nodes ≠ [] →
      (∀ resp ∈ startResps (forLoop (fun i => startReplica (start i)) k n s).2,
        resp.ok200 = true) →
      (startIds (forLoop (fun i => startReplica (start i)) k n s).2).Nodup →
      (∀ id ∈ startIds (forLoop (fun i => startReplica (start i)) k n s).2,
        id ∉ keys s.Replicas) →
      (forLoop (fun i => startReplica (start i)) k n s).1.Replicas.length =
        s.Replicas.length + n ∧
      (forLoop (fun i => startReplica (start i)) k n s).1.Nodes = s.Nodes ∧
      (forLoop (fun i => startReplica (start i)) k n s).1.DesiredReplicas =
        s.DesiredReplicas := by
  intro n
  induction n with
  | zero => intro k s _ _ _ _; simp [forLoop]
  | succ n ih =>
    intro k s hn hok hnd hfresh
    rw [forLoop_succ] at hok hnd hfresh ⊢
    obtain ⟨hresp, hids⟩ := startReplica_trace (start k) s hn
    simp only [startResps_append, startIds_append, hresp, hids, List.singleton_append,
      List.mem_cons, List.nodup_cons] at hok hnd hfresh
    have hr : (start k).resp.ok200 = true := hok _ (Or.inl rfl)
    have hid : (start k).id ∉ keys s.Replicas := hfresh _ (Or.inl rfl)
    obtain ⟨r, _, hs1⟩ := startReplica_state_ok (start k) s hn hr hid
    have hrec := ih (k + 1) (startReplica (start k) s).1 (by rw [hs1]; exact hn)
      (fun resp h => hok resp (Or.inr h)) hnd.2
      (by
        intro id hmem
        rw [hs1]
        simp only [keys, List.map_append, List.mem_append, List.map_cons, List.map_nil,
          List.mem_singleton, not_or]
        refine ⟨hfresh id (Or.inr hmem), ?_⟩
        intro heq
        exact hnd.1 (heq ▸ hmem))
    obtain ⟨h1, h2, h3⟩ := hrec
    refine ⟨?_, ?_, ?_⟩
    · simp only
      rw [h1, hs1]
      simp
      omega
    · simp only
      rw [h2, hs1]
    · simp only
      rw [h3, hs1]

theorem startLoop_fail (start : Nat → StartOracle) :
    ∀ n k s,
      (s.Nodes = [] ∨
        ∀ resp ∈ startResps (forLoop (fun i => startReplica (start i)) k n s).2,
          resp.ok200 = false) →
      (forLoop (fun i => startReplica (start i)) k n s).1 = s ∧
      (s.Nodes = [] → (forLoop (fun i => startReplica (start i)) k n s).2 = []) := by
  intro n
  induction n with
  | zero => intro k s _; simp [forLoop]
  | succ n ih =>
    intro k s h
    rw [forLoop_succ] at h ⊢
    by_cases hn : s.Nodes = []
    · have h1 := startReplica_noNodes (start k) s hn
      rw [h1]
      obtain ⟨ha, hb⟩ := ih (k + 1) s (Or.inl hn)
      exact ⟨ha, fun _ => by simpa using hb hn⟩
    · have hall := h.resolve_left hn
      obtain ⟨hresp, _⟩ := startReplica_trace (start k) s hn
      simp only [startResps_append, hresp, List.singleton_append, List.mem_cons] at hall
      have hr : (start k).resp.ok200 = false := hall _ (Or.inl rfl)
      have hs1 := startReplica_state_fail (start k) s hr
      rw [hs1] at hall ⊢
      obtain ⟨ha, _⟩ := ih (k + 1) s (Or.inr (fun resp hm => hall resp (Or.inr hm)))
      exact ⟨ha, fun h0 => absurd h0 hn⟩

/-! ## Lemmas: consecutive ticks -/

theorem reconcileTicks_succ (orc : Nat → TickOracle) (n : Nat) (s : ClusterState) :
    reconcileTicks orc (n + 1) s =
      ((reconcileTicks (fun t => orc (t + 1)) n (reconcile (orc 0) s).1).1,
        (reconcile (orc 0) s).2 ++
          (reconcileTicks (fun t => orc (t + 1)) n (reconcile (orc 0) s).1).2) := rfl

theorem reconcileTicks_fixed (s : ClusterState)
    (h : (s.Replicas.length : Int) = s.DesiredReplicas) :
    ∀ n (orc : Nat → TickOracle), reconcileTicks orc n s = (s, []) := by
  intro n
  induction n with
  | zero => intro orc; rfl
  | succ n ih =>
    intro orc
    rw [reconcileTicks_succ, reconcile_fixed (orc 0) s h, ih]
    rfl

theorem reconcileTicks_inv :
    ∀ n (orc : Nat → TickOracle) (s : ClusterState), Inv s → Inv (reconcileTicks orc n s).1 := by
  intro n
  induction n with
  | zero => intro orc s h; exact h
  | succ n ih =>
    intro orc s h
    rw [reconcileTicks_succ]
    exact ih _ _ (reconcile_inv (orc 0) s h)

theorem reconcileTicks_nodes :
    ∀ n (orc : Nat → TickOracle) (s : ClusterState),
      (reconcileTicks orc n s).1.Nodes = s.Nodes := by
  intro n
  induction n with
  | zero => intro orc s; rfl
  | succ n ih =>
    intro orc s
    rw [reconcileTicks_succ]
    simp only
    rw [ih]
    unfold reconcile
    simp only
    split
    · exact forLoop_invariant (fun st => st.Nodes = s.Nodes) _
        (fun i st hst => by
          show (startReplica (orc 0 |>.start i) st).1.Nodes = s.Nodes
          unfold startReplica
          split
          · exact hst
          · split <;> exact hst) _ _ _ rfl
    · split
      · exact forLoop_invariant (fun st => st.Nodes = s.Nodes) _
          (fun i st hst => by
            show (stopReplica (orc 0 |>.stop i) st).1.Nodes = s.Nodes
            unfold stopReplica
            split <;> exact hst) _ _ _ rfl
      · rfl

theorem reconcile_nodes (o : TickOracle) (s : ClusterState) :
    (reconcile o s).1.Nodes = s.Nodes := by
  have h := reconcileTicks_nodes 1 (fun _ => o) s
  exact h

theorem addNodeHandler_nodup (url : String) (s : ClusterState) (hnd : s.Nodes.Nodup) :
    (addNodeHandler url s).Nodes.Nodup := by
  by_cases hu : url ∈ s.Nodes
  · rw [addNodeHandler_of_mem url s hu]; exact hnd
  · rw [addNodeHandler_of_not_mem url s hu]
    simp only
    rw [List.nodup_append]
    refine ⟨hnd, List.nodup_singleton url, ?_⟩
    intro a ha hb
    rw [List.mem_singleton] at hb
    exact hu (hb ▸ ha)

theorem addNodeHandler_count (url : String) (s : ClusterState) (hc : s.Nodes.count url ≤ 1) :
    (addNodeHandler url s).Nodes.count url = 1 := by
  by_cases hu : url ∈ s.Nodes
  · rw [addNodeHandler_of_mem url s hu]
    have := List.count_pos_iff.mpr hu
    omega
  · rw [addNodeHandler_of_not_mem url s hu]
    simp [List.count_eq_zero_of_not_mem hu]

theorem applyEvent_nodup (ev : Event) (s : ClusterState) (hnd : s.Nodes.Nodup) :
    (applyEvent ev s).Nodes.Nodup := by
  cases ev with
  | admin c =>
    cases c with
    | scale count => exact hnd
    | addNode url => exact addNodeHandler_nodup url s hnd
  | tick o =>
    show (reconcile o s).1.Nodes.Nodup
    rw [reconcile_nodes]; exact hnd
  | health httpGet => exact hnd

theorem runEvents_nodup (events : List Event) (s : ClusterState) (hnd : s.Nodes.Nodup) :
    (runEvents events s).Nodes.Nodup := by
  induction events generalizing s with
  | nil => exact hnd
  | cons ev rest ih => exact ih (applyEvent ev s) (applyEvent_nodup ev s hnd)

theorem reconcileTicks_converges (s : ClusterState) (orc : Nat → TickOracle) (hwf : s.WF)
    (h0 : 0 ≤ s.DesiredReplicas)
    (hnodes : (s.Replicas.length : Int) < s.DesiredReplicas → s.Nodes ≠ [])
    (hok : ∀ resp ∈ startResps (reconcileTicks orc
      (s.DesiredReplicas - (s.Replicas.length : Int)).natAbs s).2, resp.ok200 = true)
    (hnd : (startIds (reconcileTicks orc
      (s.DesiredReplicas - (s.Replicas.length : Int)).natAbs s).2).Nodup)
    (hfresh : ∀ id ∈ startIds (reconcileTicks orc
      (s.DesiredReplicas - (s.Replicas.length : Int)).natAbs s).2, id ∉ keys s.Replicas) :
    ((reconcileTicks orc (s.DesiredReplicas - (s.Replicas.length : Int)).natAbs s).1.Replicas.length
        : Int) = s.DesiredReplicas ∧
    (reconcileTicks orc (s.DesiredReplicas - (s.Replicas.length : Int)).natAbs
      s).1.DesiredReplicas = s.DesiredReplicas := by
  rcases lt_trichotomy (s.Replicas.length : Int) s.DesiredReplicas with hlt | heq | hgt
  · obtain ⟨m, hm⟩ : ∃ m, (s.DesiredReplicas - (s.Replicas.length : Int)).natAbs = m + 1 :=
      Nat.exists_eq_succ_of_ne_zero (by omega)
    rw [hm] at hok hnd hfresh ⊢
    rw [reconcileTicks_succ] at hok hnd hfresh ⊢
    simp only [startResps_append, startIds_append, List.mem_append] at hok hnd hfresh
    rw [reconcile_up (orc 0) s hwf hlt] at hok hnd hfresh ⊢
    obtain ⟨h1, _, h3⟩ := startLoop_spec (orc 0).start _ 0 s (hnodes hlt)
      (fun resp h => hok resp (Or.inl h)) (List.Nodup.of_append_left hnd)
      (fun id h => hfresh id (Or.inl h))
    have hfix : ((forLoop (fun i => startReplica ((orc 0).start i)) 0
        (s.DesiredReplicas - (s.Replicas.length : Int)).toNat s).1.Replicas.length : Int) =
        (forLoop (fun i => startReplica ((orc 0).start i)) 0
          (s.DesiredReplicas - (s.Replicas.length : Int)).toNat s).1.DesiredReplicas := by
      rw [h1, h3]; push_cast; omega
    rw [reconcileTicks_fixed _ hfix]
    exact ⟨by rw [hfix, h3], h3⟩
  · rw [reconcileTicks_fixed s heq]
    exact ⟨heq, rfl⟩
  · obtain ⟨m, hm⟩ : ∃ m, (s.DesiredReplicas - (s.Replicas.length : Int)).natAbs = m + 1 :=
      Nat.exists_eq_succ_of_ne_zero (by omega)
    rw [hm, reconcileTicks_succ, reconcile_down (orc 0) s hwf h0 hgt]
    obtain ⟨_, h2, _, _, h5, _⟩ := stopLoop_spec (orc 0).stop
      ((s.Replicas.length : Int) - s.DesiredReplicas).toNat 0 s hwf.nodupKeys (by omega)
    have hfix : ((forLoop (fun i => stopReplica ((orc 0).stop i)) 0
        ((s.Replicas.length : Int) - s.DesiredReplicas).toNat s).1.Replicas.length : Int) =
        (forLoop (fun i => stopReplica ((orc 0).stop i)) 0
          ((s.Replicas.length : Int) - s.DesiredReplicas).toNat s).1.DesiredReplicas := by
      rw [h2]; omega
    rw [reconcileTicks_fixed _ hfix]
    exact ⟨by rw [hfix, h2], h2⟩

/-! ## The claims -/

/-- C2: for a replica map with one entry per key, `checkHealth` leaves exactly
the entries whose `NodeURL` is not a registered node that probed unreachable:
every replica on a failed registered node is evicted, every other entry stays
as it was and in place, and `Nodes`, `DesiredReplicas` and `Config` are
unchanged. -/
theorem checkHealth_evicts_exactly_failed_nodes (httpGet : String → HttpResult)
    (s : ClusterState) (h : (keys s.Replicas).Nodup) :
    checkHealth httpGet s =
      { s with
        Replicas := s.Replicas.filter (fun e =>
          decide (¬ (e.2.NodeURL ∈ s.Nodes ∧
            (httpGet (e.2.NodeURL ++ "/status")).ok200 = false))) } ∧
    (∀ e, e ∈ (checkHealth httpGet s).Replicas ↔
      e ∈ s.Replicas ∧
        ¬ (e.2.NodeURL ∈ s.Nodes ∧ (httpGet (e.2.NodeURL ++ "/status")).ok200 = false)) ∧
    (checkHealth httpGet s).Replicas.Sublist s.Replicas ∧
    (checkHealth httpGet s).Nodes = s.Nodes ∧
    (checkHealth httpGet s).DesiredReplicas = s.DesiredReplicas := by
  have heq : checkHealth httpGet s =
      { s with
        Replicas := s.Replicas.filter (fun e =>
          decide (¬ (e.2.NodeURL ∈ s.Nodes ∧
            (httpGet (e.2.NodeURL ++ "/status")).ok200 = false))) } := by
    unfold checkHealth
    rw [probeLoop_eq_filter httpGet s.Nodes s.Replicas h]
  refine ⟨heq, ?_, ?_, rfl, rfl⟩
  · intro e
    rw [heq]
    simp only [List.mem_filter, decide_eq_true_eq]
  · exact probeLoop_sublist httpGet s.Nodes s.Replicas

/-- Witness of C2: node `http://n1` is unreachable, and of the three replicas
only the one on `http://n2` is left. -/
theorem checkHealth_evicts_exactly_failed_nodes_witness :
    (keys exampleState.Replicas).Nodup ∧
    (checkHealth exampleProbe exampleState).Replicas = [("b", exampleReplica "b" "http://n2")] ∧
    (∀ e, e ∈ (checkHealth exampleProbe exampleState).Replicas ↔
      e ∈ exampleState.Replicas ∧
        ¬ (e.2.NodeURL ∈ exampleState.Nodes ∧
          (exampleProbe (e.2.NodeURL ++ "/status")).ok200 = false)) :=
  ⟨by decide, by decide,
    (checkHealth_evicts_exactly_failed_nodes exampleProbe exampleState (by decide)).2.1⟩

/-- C3: `proxyHandler` answers 503 exactly when the snapshot is empty; with a
non-empty snapshot the random index is in bounds, the target is the element of
the snapshot at that index, and the request is forwarded to the scheme and
host of the target's node with the target's own `Port`. When the loop visited
the entries of the map, the target is a replica of the directory. -/
theorem proxyHandler_selects_from_snapshot (urlParse : String → String × String)
    (range : ReplicaMap → ReplicaMap) (rnd : Nat) (s : ClusterState) :
    (proxyHandler urlParse range rnd s = ProxyOutcome.serviceUnavailable ↔
      (range s.Replicas).map Prod.snd = []) ∧
    ((range s.Replicas).map Prod.snd ≠ [] →
      randIntn rnd ((range s.Replicas).map Prod.snd).length <
        ((range s.Replicas).map Prod.snd).length ∧
      ∃ target,
        ((range s.Replicas).map Prod.snd)[randIntn rnd
          ((range s.Replicas).map Prod.snd).length]? = some target ∧
        target ∈ (range s.Replicas).map Prod.snd ∧
        proxyHandler urlParse range rnd s =
          ProxyOutcome.forward target
            ((urlParse target.NodeURL).1 ++ "://" ++ (urlParse target.NodeURL).2 ++ ":" ++
              target.Port)) ∧
    ((range s.Replicas).Perm s.Replicas →
      ∀ target url, proxyHandler urlParse range rnd s = ProxyOutcome.forward target url →
        ∃ id, (id, target) ∈ s.Replicas) := by
  have hmain : (range s.Replicas).map Prod.snd ≠ [] →
      randIntn rnd ((range s.Replicas).map Prod.snd).length <
        ((range s.Replicas).map Prod.snd).length ∧
      ∃ target,
        ((range s.Replicas).map Prod.snd)[randIntn rnd
          ((range s.Replicas).map Prod.snd).length]? = some target ∧
        target ∈ (range s.Replicas).map Prod.snd ∧
        proxyHandler urlParse range rnd s =
          ProxyOutcome.forward target
            ((urlParse target.NodeURL).1 ++ "://" ++ (urlParse target.NodeURL).2 ++ ":" ++
              target.Port) := by
    intro hne
    have hlen : ((range s.Replicas).map Prod.snd).length ≠ 0 :=
      fun h0 => hne (List.length_eq_zero.mp h0)
    have hi := randIntn_lt rnd _ hlen
    refine ⟨hi, _, List.getElem?_eq_getElem hi, List.getElem_mem hi, ?_⟩
    unfold proxyHandler
    simp only
    rw [if_neg hlen, List.getElem?_eq_getElem hi]
  refine ⟨⟨?_, ?_⟩, hmain, ?_⟩
  · intro h503
    by_contra hne
    obtain ⟨_, target, _, _, hfw⟩ := hmain hne
    rw [hfw] at h503
    cases h503
  · intro hnil
    unfold proxyHandler
    simp [hnil]
  · intro hperm target url hfw
    by_cases hne : (range s.Replicas).map Prod.snd = []
    · unfold proxyHandler at hfw
      simp [hne] at hfw
    · obtain ⟨_, t, _, hmem, hfw2⟩ := hmain hne
      rw [hfw2] at hfw
      injection hfw with ht _
      subst ht
      obtain ⟨e, he, het⟩ := List.mem_map.mp hmem
      exact ⟨e.1, by rw [← het]; exact hperm.subset he⟩

/-- Witness of C3: the loop visits the three replicas of the example in
reverse order and the random index is 4. -/
theorem proxyHandler_selects_from_snapshot_witness :
    (List.reverse exampleState.Replicas).Perm exampleState.Replicas ∧
    proxyHandler (fun _ => ("http", "n2")) List.reverse 4 exampleState =
      ProxyOutcome.forward (exampleReplica "b" "http://n2") "http://n2:8001" ∧
    ∃ id, (id, exampleReplica "b" "http://n2") ∈ exampleState.Replicas :=
  ⟨List.reverse_perm _, by decide,
    (proxyHandler_selects_from_snapshot (fun _ => ("http", "n2")) List.reverse 4
      exampleState).2.2 (List.reverse_perm _) (exampleReplica "b" "http://n2") "http://n2:8001"
      (by decide)⟩

/-- C4: `addNodeHandler` is idempotent. In every state the program reaches
from the initial state (by requests, ticks and health checks, in any order and
for every oracle) `Nodes` has no duplicates, registering `u` twice gives the
same state as registering it once, and `u` then occurs exactly once in
`Nodes`. In every state whatever, registering twice is the same as once, a URL
already present changes nothing, a new URL is appended after the existing
entries, a list without duplicates stays so, and `u` ends up exactly once in
the list if it was there at most once. -/
theorem addNodeHandler_idempotent (s : ClusterState) (u : String) :
    (∀ events : List Event,
      (runEvents events state).Nodes.Nodup ∧
      (addNodeHandler u (addNodeHandler u (runEvents events state))).Nodes =
        (addNodeHandler u (runEvents events state)).Nodes ∧
      (addNodeHandler u (runEvents events state)).Nodes.count u = 1) ∧
    addNodeHandler u (addNodeHandler u s) = addNodeHandler u s ∧
    (s.Nodes.count u ≤ 1 → (addNodeHandler u s).Nodes.count u = 1) ∧
    (u ∈ s.Nodes → addNodeHandler u s = s) ∧
    (u ∉ s.Nodes → addNodeHandler u s = { s with Nodes := s.Nodes ++ [u] }) ∧
    (s.Nodes.Nodup → (addNodeHandler u s).Nodes.Nodup) := by
  refine ⟨?_, addNodeHandler_of_mem u _ (addNodeHandler_mem u s), addNodeHandler_count u s,
    addNodeHandler_of_mem u s, addNodeHandler_of_not_mem u s, addNodeHandler_nodup u s⟩
  intro events
  have hnd : (runEvents events state).Nodes.Nodup :=
    runEvents_nodup events state List.nodup_nil
  refine ⟨hnd, ?_, addNodeHandler_count u _ (List.nodup_iff_count_le_one.mp hnd u)⟩
  rw [addNodeHandler_of_mem u _ (addNodeHandler_mem u _)]

/-- Witness of C4: after a run that registers `http://n1` twice and
`http://n2` once, registering `http://n1` again changes nothing and the URL is
in the list once; `http://n3` is new to the example state and ends up in its
list once, at the end. -/
theorem addNodeHandler_idempotent_witness :
    (runEvents exampleEvents state).Nodes = ["http://n1", "http://n2"] ∧
    (runEvents exampleEvents state).Replicas.length = 3 ∧
    (addNodeHandler "http://n1" (runEvents exampleEvents state)).Nodes.count "http://n1" = 1 ∧
    exampleState.Nodes.count "http://n3" ≤ 1 ∧ "http://n3" ∉ exampleState.Nodes ∧
    (addNodeHandler "http://n3" exampleState).Nodes.count "http://n3" = 1 ∧
    (addNodeHandler "http://n3" exampleState).Nodes = ["http://n1", "http://n2", "http://n3"] :=
  ⟨by decide, by decide,
    ((addNodeHandler_idempotent exampleState "http://n1").1 exampleEvents).2.2,
    by decide, by decide,
    (addNodeHandler_idempotent exampleState "http://n3").2.2.1 (by decide), by decide⟩

/-- C5, as the code has it: `scaleHandler` does not validate the count; for
every integer `n`, negative or not, the state after the call is the state
before it with `DesiredReplicas` set to `n`. -/
theorem scaleHandler_sets_any_count (n : Int) (s : ClusterState) :
    (scaleHandler n s).DesiredReplicas = n ∧
    scaleHandler n s = { s with DesiredReplicas := n } := by
  constructor <;> rfl

/-- Counterexample to C5 as stated: `scale(-1)` on the initial state is not
rejected; `DesiredReplicas` changes from 0 to -1. -/
theorem scaleHandler_negative_counterexample :
    (-1 : Int) < 0 ∧ state.DesiredReplicas = 0 ∧
    (scaleHandler (-1) state).DesiredReplicas = -1 ∧
    ¬ ((scaleHandler (-1) state).DesiredReplicas = state.DesiredReplicas) := by
  decide

/-- C6: after any sequence of `/scale` and `/add-node` requests, the status
snapshot shows the count of the last `/scale` request (the old value if there
was none), every URL registered by the sequence and every node known before,
and the replica map it had before the sequence; `/scale` changes no field but
`DesiredReplicas` and `/add-node` no field but `Nodes`. -/
theorem admin_calls_visible_in_status (s : ClusterState) (calls : List AdminCall) :
    (statusHandler (applyAdmins calls s)).desired_replicas =
      (lastScale calls).getD s.DesiredReplicas ∧
    (∀ u, AdminCall.addNode u ∈ calls → u ∈ (statusHandler (applyAdmins calls s)).nodes) ∧
    (∀ u ∈ s.Nodes, u ∈ (statusHandler (applyAdmins calls s)).nodes) ∧
    (statusHandler (applyAdmins calls s)).replicas = s.Replicas ∧
    (∀ n, scaleHandler n s = { s with DesiredReplicas := n }) ∧
    (∀ u, (addNodeHandler u s).Replicas = s.Replicas ∧
      (addNodeHandler u s).DesiredReplicas = s.DesiredReplicas ∧
      (addNodeHandler u s).Config = s.Config) := by
  obtain ⟨h1, _, h3, h4, h5⟩ := applyAdmins_frame calls s
  exact ⟨h3, h5, h4, h1, fun _ => rfl, fun u => addNodeHandler_frame u s⟩

/-- C9: the placement invariant (every replica is on a registered node and is
stored under its own id) holds in the initial state and is preserved by
`reconcile`, `startReplica` and `stopReplica` for every oracle, by
`checkHealth` for every probe, and by the `/scale` and `/add-node` updates. -/
theorem placement_invariant_preserved :
    Inv state ∧
    (∀ o s, Inv s → Inv (reconcile o s).1) ∧
    (∀ o s, Inv s → Inv (startReplica o s).1) ∧
    (∀ o s, Inv s → Inv (stopReplica o s).1) ∧
    (∀ httpGet s, Inv s → Inv (checkHealth httpGet s)) ∧
    (∀ count s, Inv s → Inv (scaleHandler count s)) ∧
    (∀ url s, Inv s → Inv (addNodeHandler url s)) :=
  ⟨(fun _ he => by cases he), reconcile_inv, startReplica_inv, stopReplica_inv, checkHealth_inv,
    scaleHandler_inv, addNodeHandler_inv⟩

/-- Witness of C9: the example state satisfies the invariant, and so does the
state one tick of the reconciler makes of it. -/
theorem placement_invariant_preserved_witness :
    Inv exampleStateUp ∧ Inv (reconcile exampleOracle exampleStateUp).1 ∧
    (reconcile exampleOracle exampleStateUp).1.Replicas.length = 5 :=
  ⟨by decide, placement_invariant_preserved.2.1 exampleOracle exampleStateUp (by decide),
    by decide⟩

/-- C8: with `0 ≤ DesiredReplicas < len(Replicas)`, one tick issues exactly
`len(Replicas) - DesiredReplicas` calls, all of them stop calls, each to the
node of a replica of the map and for that replica's key, no replica twice;
the replicas removed are exactly those the stop calls were for, whatever the
agents answered; the map left is a sub-map of the old one with
`DesiredReplicas` entries, and `Nodes`, `DesiredReplicas` and `Config` are
unchanged. -/
theorem reconcile_scale_down (o : TickOracle) (s : ClusterState) (hwf : s.WF)
    (h0 : 0 ≤ s.DesiredReplicas) (hlt : s.DesiredReplicas < (s.Replicas.length : Int)) :
    ((reconcile o s).2.length : Int) = (s.Replicas.length : Int) - s.DesiredReplicas ∧
    ((stopIds (reconcile o s).2).length : Int) =
      (s.Replicas.length : Int) - s.DesiredReplicas ∧
    startIds (reconcile o s).2 = [] ∧
    (∀ c ∈ (reconcile o s).2,
      ∃ e ∈ s.Replicas, ∃ resp, c = AgentCall.stop e.2.NodeURL e.1 resp) ∧
    (stopIds (reconcile o s).2).Nodup ∧
    (reconcile o s).1.Replicas =
      s.Replicas.filter (fun e => decide (e.1 ∉ stopIds (reconcile o s).2)) ∧
    (∀ o2 : TickOracle, (∀ i, (o2.stop i).first = (o.stop i).first) →
      (reconcile o2 s).1 = (reconcile o s).1) ∧
    (reconcile o s).1.Replicas.Sublist s.Replicas ∧
    ((reconcile o s).1.Replicas.length : Int) = s.DesiredReplicas ∧
    (reconcile o s).1.Nodes = s.Nodes ∧
    (reconcile o s).1.DesiredReplicas = s.DesiredReplicas ∧
    (reconcile o s).1.Config = s.Config := by
  have hn : ((s.Replicas.length : Int) - s.DesiredReplicas).toNat ≤ s.Replicas.length := by
    omega
  obtain ⟨h1, h2, h3, h4, h5, h6, h7, h8, h9, h10⟩ :=
    stopLoop_spec o.stop _ 0 s hwf.nodupKeys hn
  have hindep : ∀ o2 : TickOracle, (∀ i, (o2.stop i).first = (o.stop i).first) →
      (reconcile o2 s).1 = (reconcile o s).1 := by
    intro o2 hsame
    rw [reconcile_down o2 s hwf h0 hlt, reconcile_down o s hwf h0 hlt]
    exact forLoop_state_congr _ _
      (fun i st => stopReplica_state_indep (o2.stop i) (o.stop i) st (hsame i)) _ _ _
  rw [reconcile_down o s hwf h0 hlt] at hindep ⊢
  refine ⟨by omega, by omega, h7, h10, h9, h4, hindep, ?_, by omega, h1, h2, h3⟩
  rw [h4]
  exact List.filter_sublist _

/-- Witness of C8: three replicas, one wanted; the tick stops `b` (the call
fails in transport) and `c`, and `a` is left. -/
theorem reconcile_scale_down_witness :
    exampleState.WF ∧ 0 ≤ exampleState.DesiredReplicas ∧
    exampleState.DesiredReplicas < (exampleState.Replicas.length : Int) ∧
    (reconcile exampleOracle exampleState).2 =
      [AgentCall.stop "http://n2" "b" HttpResult.transportError,
        AgentCall.stop "http://n1" "c" (HttpResult.status 200)] ∧
    (reconcile exampleOracle exampleState).1.Replicas =
      exampleState.Replicas.filter
        (fun e => decide (e.1 ∉ stopIds (reconcile exampleOracle exampleState).2)) ∧
    (reconcile exampleOracle exampleState).1.Replicas = [("a", exampleReplica "a" "http://n1")] :=
  ⟨⟨by decide, by decide, by decide, by decide⟩, by decide, by decide, by decide,
    (reconcile_scale_down exampleOracle exampleState ⟨by decide, by decide, by decide, by decide⟩
      (by decide) (by decide)).2.2.2.2.2.1,
    by decide⟩

/-- C10: with `DesiredReplicas > len(Replicas)`, if no node is registered or
every start call of the tick fails, the tick leaves the whole state unchanged,
so the next tick meets the same state; with no node registered it issues no
call at all. In particular a cluster with no replica keeps none. -/
theorem reconcile_no_progress_without_usable_node (o : TickOracle) (s : ClusterState)
    (hwf : s.WF) (hlt : (s.Replicas.length : Int) < s.DesiredReplicas)
    (hfail : s.Nodes = [] ∨ ∀ resp ∈ startResps (reconcile o s).2, resp.ok200 = false) :
    (reconcile o s).1 = s ∧
    (s.Nodes = [] → (reconcile o s).2 = []) ∧
    (∀ o2 : TickOracle, reconcile o2 (reconcile o s).1 = reconcile o2 s) ∧
    (s.Replicas.length = 0 → (reconcile o s).1.Replicas.length = 0) := by
  rw [reconcile_up o s hwf hlt] at hfail
  obtain ⟨h1, h2⟩ := startLoop_fail o.start _ 0 s hfail
  rw [← reconcile_up o s hwf hlt] at h1 h2
  exact ⟨h1, h2, fun o2 => by rw [h1], fun hz => by rw [h1]; exact hz⟩

/-- Witness of C10: one node, no replica, three wanted, and the three start
calls fail (one in transport, two with status 500): the state is unchanged. -/
theorem reconcile_no_progress_without_usable_node_witness :
    exampleStateEmpty.WF ∧
    (exampleStateEmpty.Replicas.length : Int) < exampleStateEmpty.DesiredReplicas ∧
    (startResps (reconcile exampleOracleFail exampleStateEmpty).2).length = 3 ∧
    (∀ resp ∈ startResps (reconcile exampleOracleFail exampleStateEmpty).2,
      resp.ok200 = false) ∧
    (reconcile exampleOracleFail exampleStateEmpty).1 = exampleStateEmpty :=
  ⟨⟨by decide, by decide, by decide, by decide⟩, by decide, by decide, by decide,
    (reconcile_no_progress_without_usable_node exampleOracleFail exampleStateEmpty
      ⟨by decide, by decide, by decide, by decide⟩ (by decide) (Or.inr (by decide))).1⟩

/-- C1: (1) from a state with `DesiredReplicas ≥ 0` that has a node whenever
replicas are missing, a run of `|DesiredReplicas - len(Replicas)|` ticks in
which every start call answers 200 and the generated ids are distinct from
each other and from the keys of the map ends with
`len(Replicas) = DesiredReplicas`; (2) a tick at
`len(Replicas) = DesiredReplicas` issues no call and changes nothing;
(3) from the initial state, add-node `http://n1`, scale 3 and three such ticks
give exactly three replicas, all on `http://n1`; (4) scale 2, scale 0 and a
tick issue no call and leave no replica. -/
theorem reconcile_converges :
    (∀ (s : ClusterState) (orc : Nat → TickOracle), s.WF → 0 ≤ s.DesiredReplicas →
      ((s.Replicas.length : Int) < s.DesiredReplicas → s.Nodes ≠ []) →
      (∀ resp ∈ startResps (reconcileTicks orc
        (s.DesiredReplicas - (s.Replicas.length : Int)).natAbs s).2, resp.ok200 = true) →
      (startIds (reconcileTicks orc
        (s.DesiredReplicas - (s.Replicas.length : Int)).natAbs s).2).Nodup →
      (∀ id ∈ startIds (reconcileTicks orc
        (s.DesiredReplicas - (s.Replicas.length : Int)).natAbs s).2, id ∉ keys s.Replicas) →
      ((reconcileTicks orc (s.DesiredReplicas - (s.Replicas.length : Int)).natAbs
        s).1.Replicas.length : Int) =
        (reconcileTicks orc (s.DesiredReplicas - (s.Replicas.length : Int)).natAbs
          s).1.DesiredReplicas ∧
      (reconcileTicks orc (s.DesiredReplicas - (s.Replicas.length : Int)).natAbs
        s).1.DesiredReplicas = s.DesiredReplicas) ∧
    (∀ (s : ClusterState) (o : TickOracle),
      (s.Replicas.length : Int) = s.DesiredReplicas → reconcile o s = (s, [])) ∧
    (∀ orc : Nat → TickOracle,
      (∀ resp ∈ startResps
        (reconcileTicks orc 3 (scaleHandler 3 (addNodeHandler "http://n1" state))).2,
        resp.ok200 = true) →
      (startIds
        (reconcileTicks orc 3 (scaleHandler 3 (addNodeHandler "http://n1" state))).2).Nodup →
      (reconcileTicks orc 3
        (scaleHandler 3 (addNodeHandler "http://n1" state))).1.Replicas.length = 3 ∧
      ∀ e ∈ (reconcileTicks orc 3
        (scaleHandler 3 (addNodeHandler "http://n1" state))).1.Replicas,
        e.2.NodeURL = "http://n1") ∧
    (∀ o : TickOracle,
      (reconcile o (scaleHandler 0 (scaleHandler 2 state))).2 = [] ∧
      (reconcile o (scaleHandler 0 (scaleHandler 2 state))).1.Replicas = []) := by
  refine ⟨?_, fun s o h => reconcile_fixed o s h, ?_, ?_⟩
  · intro s orc hwf h0 hnodes hok hnd hfresh
    obtain ⟨h1, h2⟩ := reconcileTicks_converges s orc hwf h0 hnodes hok hnd hfresh
    exact ⟨by rw [h1, h2], h2⟩
  · intro orc hok hnd
    have hs : scaleHandler 3 (addNodeHandler "http://n1" state) = exampleStateEmpty := by
      decide
    rw [hs] at hok hnd ⊢
    have hwf : exampleStateEmpty.WF := ⟨by decide, by decide, by decide, by decide⟩
    have hn : (exampleStateEmpty.DesiredReplicas -
        (exampleStateEmpty.Replicas.length : Int)).natAbs = 3 := by decide
    obtain ⟨h1, _⟩ := reconcileTicks_converges exampleStateEmpty orc hwf (by decide)
      (fun _ => by decide) (by rw [hn]; exact hok) (by rw [hn]; exact hnd)
      (by intro id _ hmem; cases hmem)
    rw [hn] at h1
    have hd : exampleStateEmpty.DesiredReplicas = 3 := rfl
    rw [hd] at h1
    refine ⟨by exact_mod_cast h1, ?_⟩
    intro e he
    have hinv := reconcileTicks_inv 3 orc exampleStateEmpty (by decide) e he
    rw [reconcileTicks_nodes] at hinv
    simpa [exampleStateEmpty] using hinv.1
  · intro o
    rw [reconcile_fixed o (scaleHandler 0 (scaleHandler 2 state)) (by decide)]
    exact ⟨rfl, rfl⟩

/-- Witness of C1: three replicas and five wanted; two ticks with successful
start calls and the fresh ids `x` and `y` end with five replicas. -/
theorem reconcile_converges_witness :
    exampleStateUp.WF ∧ 0 ≤ exampleStateUp.DesiredReplicas ∧
    exampleStateUp.Nodes ≠ [] ∧
    (exampleStateUp.DesiredReplicas - (exampleStateUp.Replicas.length : Int)).natAbs = 2 ∧
    startIds (reconcileTicks (fun _ => exampleOracle)
      (exampleStateUp.DesiredReplicas - (exampleStateUp.Replicas.length : Int)).natAbs
      exampleStateUp).2 = ["x", "y"] ∧
    ((reconcileTicks (fun _ => exampleOracle)
      (exampleStateUp.DesiredReplicas - (exampleStateUp.Replicas.length : Int)).natAbs
      exampleStateUp).1.Replicas.length : Int) = 5 :=
  ⟨⟨by decide, by decide, by decide, by decide⟩, by decide, by decide, by decide, by decide,
    (reconcile_converges.1 exampleStateUp (fun _ => exampleOracle)
      ⟨by decide, by decide, by decide, by decide⟩ (by decide) (fun _ => by decide)
      (by decide) (by decide) (by decide)).1.trans (by decide)⟩

end GoCluster
